import Mathlib

/-!
Verification of the text-extraction, truncation and analysis pipeline of
`src/GAIBAapp.py` (AI-Based Financial Report Summarizer).

Texts are modelled as `List Char` (Python `str` at character granularity).
Python slices `text[:n]` become `List.take n`, `text[-n:]` becomes
`pySliceFromNeg` (which, like Python, returns the whole string when `n = 0`),
and `int(max_chars * 0.4)` becomes `2 * max_chars / 5` in natural-number
division, which agrees with CPython's float computation for every budget the
program can pass (the rounding error of `0.4 * B` in binary64 is far below
the distance `0.2` to the next integer for all `B` below `10^15`).

Fallible Python calls are modelled with `Except`/`Option`: a PDF reader is a
list of per-page results, each either a raised exception or the page's text,
and the whole reader handle may fail at open time.  The LLM client is an
abstract function from (system prompt, user prompt) to `Except` — the
completion text or the raised error's message.
-/

/-- Python character strings, at character granularity. -/
abbrev Str := List Char

/-- Python slice `text[-n:]`: the last `n` characters, except that for
`n = 0` Python's `text[-0:]` is `text[0:]`, i.e. the whole string. -/
def pySliceFromNeg (n : Nat) (l : Str) : Str :=
  if n = 0 then l else l.drop (l.length - n)

/-- The literal inserted between the kept head and tail in `smart_truncate`
(source line 61): `"\n\n[... MIDDLE SECTION TRUNCATED ...]\n\n"`. -/
def marker : Str := ("\n\n[... MIDDLE SECTION TRUNCATED ...]\n\n").data

/-- Embedding of `smart_truncate(text, max_chars=20000)` (source lines 49-61):
no-op when `len(text) <= max_chars`; otherwise keeps the first
`int(max_chars*0.4)` characters and Python's `text[-int(max_chars*0.4):]`,
joined by the marker. -/
def smart_truncate (text : Str) (max_chars : Nat) : Str :=
  if text.length ≤ max_chars then text
  else
    let start_len := 2 * max_chars / 5
    let end_len := 2 * max_chars / 5
    text.take start_len ++ marker ++ pySliceFromNeg end_len text

/-- Embedding of the hard-cutoff truncation `text[:maxChars]` used at source
line 47 (`return text[:45000]`), generalised over the budget. -/
def hard_truncate (text : Str) (maxChars : Nat) : Str :=
  text.take maxChars

/-- ASCII whitespace recognised by Python's `str.strip()` / `str.split()`
(the characters the program can actually produce as separators). -/
def isPySpace (c : Char) : Bool :=
  c == ' ' || c == '\t' || c == '\n' || c == '\r' || c == '\x0b' || c == '\x0c'

/-- Python `text.strip()`: remove leading and trailing whitespace. -/
def pyStrip (l : Str) : Str :=
  ((l.dropWhile isPySpace).reverse.dropWhile isPySpace).reverse

/-- An uploaded PDF as the two reader libraries see it.
`plumber` models `pdfplumber.open(...).pages`: opening may raise, and each
page's `extract_text()` may raise or return `None`/a string (`Option Str`,
`none` for Python `None`).  `pypdf` models `PdfReader(...).pages`: opening
may raise, and each page's `extract_text()` may raise or return a string. -/
structure PDFDoc where
  plumber : Except Str (List (Except Str (Option Str)))
  pypdf : Except Str (List (Except Str Str))

/-- The pdfplumber loop of `extract_pdf_text` (source lines 29-35): for each
page, append `page_text + "\n"` when `page_text` is truthy, then break once
`len(text) > 50000`.  Returns the accumulated text and whether an exception
was raised (the accumulated text survives into the fallback branch, since
the Python `text` variable is shared). -/
def primaryLoop : List (Except Str (Option Str)) → Str → Str × Bool
  | [], acc => (acc, false)
  | p :: ps, acc =>
    match p with
    | .error _ => (acc, true)
    | .ok pt =>
      let acc2 := match pt with
        | some s => if s = [] then acc else acc ++ s ++ ['\n']
        | none => acc
      if 50000 < acc2.length then (acc2, false) else primaryLoop ps acc2

/-- Run the primary (pdfplumber) reader over the first 20 pages
(source line 30: `pdf.pages[:20]`); an open failure counts as a raise with
nothing accumulated. -/
def runPrimary (d : PDFDoc) : Str × Bool :=
  match d.plumber with
  | .error _ => ([], true)
  | .ok pages => primaryLoop (pages.take 20) []

/-- The PyPDF2 fallback loop (source lines 39-43): for each page, append
`page.extract_text() + "\n"` unconditionally, break once `len(text) > 40000`;
any raise is caught by the inner `except`, which returns `""` (`none`). -/
def fallbackLoop : List (Except Str Str) → Str → Option Str
  | [], acc => some acc
  | p :: ps, acc =>
    match p with
    | .error _ => none
    | .ok s =>
      let acc2 := acc ++ s ++ ['\n']
      if 40000 < acc2.length then some acc2 else fallbackLoop ps acc2

/-- Run the fallback (PyPDF2) reader over the first 15 pages
(source line 40: `reader.pages[:15]`), starting from the text the primary
reader had accumulated before raising. -/
def runFallback (d : PDFDoc) (acc : Str) : Option Str :=
  match d.pypdf with
  | .error _ => none
  | .ok pages => fallbackLoop (pages.take 15) acc

/-- Embedding of `extract_pdf_text` (source lines 22-47): primary reader,
fallback on raise, `return ""` when the fallback raises too, and a final
hard cap `text[:45000]`. -/
def extract_pdf_text (d : PDFDoc) : Str :=
  let pr := runPrimary d
  if pr.2 then
    match runFallback d pr.1 with
    | none => []
    | some t => t.take 45000
  else pr.1.take 45000

/-- The three analysis kinds the source's `prompts` dict is keyed by
(source lines 67-102: `"summary"`, `"metrics"`, `"risks"`). -/
inductive AnalysisType where
  | summary : AnalysisType
  | metrics : AnalysisType
  | risks : AnalysisType

/-- The fixed system instruction of `analyze_report` (source line 108). -/
def systemInstruction : Str :=
  ("You are a financial analyst. Provide accurate, concise analysis.").data

/-- The error tag prepended to a failed call's message
(source line 116: `f"❌ Error: {str(e)}"`). -/
def errTag : Str := ("❌ Error: ").data

/-- The `prompts` dict of `analyze_report` (source lines 67-102): each
template embeds the chunk text verbatim between fixed instruction text. -/
def prompts (kind : AnalysisType) (text : Str) : Str :=
  match kind with
  | .summary =>
      ("Analyze this financial report and provide a concise executive summary in 150-200 words:\n\n").data
        ++ text ++
      ("\n\nFocus on: Revenue trends, profitability, key developments, and outlook.").data
  | .metrics =>
      ("Extract key financial metrics from this report and format as CSV:\n\n").data
        ++ text ++
      ("\n\nRequired format:\nMetric,Current Period,Previous Period,Change\nRevenue,[amount],[amount],[%]\nNet Income,[amount],[amount],[%]\nEBITDA,[amount],[amount],[%]\nEPS,[amount],[amount],[%]\nTotal Assets,[amount],[amount],[%]\nTotal Debt,[amount],[amount],[%]\n\nUse actual numbers from the report. Write \x27N/A\x27 if not found.").data
  | .risks =>
      ("Identify the top 5 risks and opportunities from this financial report:\n\n").data
        ++ text ++
      ("\n\nFormat as:\nRISKS:\n• [Risk 1]\n• [Risk 2]\n• [Risk 3]\n\nOPPORTUNITIES:\n• [Opportunity 1]\n• [Opportunity 2]").data

/-- The LLM capability: (system prompt, user prompt) ↦ completion text, or
the raised exception's message (`groq` client call, source lines 105-114). -/
abbrev LLM := Str → Str → Except Str Str

/-- Embedding of `analyze_report` (source lines 63-116): build the
kind-specific prompt, issue exactly one completion call, return its content,
or `"❌ Error: " + str(e)` when the call raises.  The second component is
the trace of (system, user) prompt pairs of the LLM calls issued. -/
def analyze_report (llm : LLM) (text : Str) (kind : AnalysisType) :
    Str × List (Str × Str) :=
  let prompt := prompts kind text
  let resp := llm systemInstruction prompt
  (match resp with
   | .ok c => c
   | .error e => errTag ++ e,
   [(systemInstruction, prompt)])

/-- Outcome of one pipeline run: halted at the extraction check, or an
analysis result was produced. -/
inductive PipelineOutcome where
  | extractionFailed : PipelineOutcome
  | analyzed : Str → PipelineOutcome

/-- Embedding of the module-level UI flow (source lines 125-176): extract,
halt with an error when the stripped text is empty (`st.stop()`, line 136),
otherwise truncate with the configured budget 20000 and run the requested
analysis.  The second component counts the LLM calls issued. -/
def pipeline (d : PDFDoc) (llm : LLM) (kind : AnalysisType) :
    PipelineOutcome × Nat :=
  let report_text := extract_pdf_text d
  if pyStrip report_text = [] then (PipelineOutcome.extractionFailed, 0)
  else
    let processed := smart_truncate report_text 20000
    let r := analyze_report llm processed kind
    (PipelineOutcome.analyzed r.1, r.2.length)

/-- The output the secondary (PyPDF2) reader would produce on its own,
starting from an empty accumulator — what the spec calls "the secondary
reader's output". -/
def fallbackAlone (d : PDFDoc) : Option Str := runFallback d []

/-- Evidence documents used by the C4 and C6 counterexamples and by the
witnesses of the extractor theorems. -/
def bothRaiseDoc : PDFDoc :=
  { plumber := Except.error (("open failed").data)
    pypdf := Except.error (("open failed too").data) }

/-- Document where the primary reader succeeds but yields only whitespace
(one page returning `" "`) while the fallback would yield `"XYZ\n"`. -/
def whitespacePrimaryDoc : PDFDoc :=
  { plumber := Except.ok [Except.ok (some [' '])]
    pypdf := Except.ok [Except.ok (('X' :: 'Y' :: 'Z' :: []))] }

/-- Document where the primary reader raises at open and the fallback
yields only empty page texts (two pages returning `""`). -/
def emptyFallbackDoc : PDFDoc :=
  { plumber := Except.error (("boom").data)
    pypdf := Except.ok [Except.ok [], Except.ok []] }

/-- Document where the primary reader opens fine but its first page's
`extract_text()` raises before any text was accumulated, while the
fallback succeeds with one page of real text. -/
def pageRaiseDoc : PDFDoc :=
  { plumber := Except.ok [Except.error (("page boom").data)]
    pypdf := Except.ok [Except.ok (('X' :: 'Y' :: 'Z' :: []))] }

/-- Modelled from the spec: the Chunker component (spec §4.3) is absent from
`src/GAIBAapp.py`; its word splitting is Python `text.split()` — split on
whitespace runs, no empty words.  Accumulates the current word reversed. -/
def wordsAux : Str → Str → List Str
  | [], cur => if cur = [] then [] else [cur.reverse]
  | c :: cs, cur =>
    if isPySpace c then
      if cur = [] then wordsAux cs [] else cur.reverse :: wordsAux cs []
    else wordsAux cs (c :: cur)

/-- Modelled from the spec: the whitespace-delimited word sequence of a
text (`wordCount(text)` is its length). -/
def wordsOf (t : Str) : List Str := wordsAux t []

/-- Modelled from the spec: joining consecutive words with single spaces. -/
def spaceJoin : List Str → Str
  | [] => []
  | [w] => w
  | w :: x :: ws => w ++ ' ' :: spaceJoin (x :: ws)

/-- Modelled from the spec: consecutive groups of `n` words (fuel-indexed
recursion; `groupN` supplies fuel `l.length`, enough whenever `n > 0`). -/
def groupNGo (n : Nat) : Nat → List Str → List (List Str)
  | 0, _ => []
  | _ + 1, [] => []
  | fuel + 1, w :: ws => (w :: ws).take n :: groupNGo n fuel ((w :: ws).drop n)

/-- Modelled from the spec: split a word list into consecutive groups of
`n` words (the last group may be shorter). -/
def groupN (n : Nat) (l : List Str) : List (List Str) := groupNGo n l.length l

/-- Modelled from the spec: `chunk(text, chunkWordCount)` — the Chunker
contract of spec §4.3, absent from `src/GAIBAapp.py`: split the text into
whitespace-delimited words, group them `n` per chunk, and join each group
with single spaces. -/
def chunk (t : Str) (n : Nat) : List Str :=
  (groupN n (wordsOf t)).map spaceJoin

/- ------------------------------------------------------------------ -/
/- Theorems -/
/- ------------------------------------------------------------------ -/

/-- Claim C1: for every text `T` and budget `B` with `len(T) > B`, the
head/tail `smart_truncate T B` output has `T`'s first `int(0.4*B)`
characters as a prefix and `T`'s last `int(0.4*B)` characters as a suffix,
with a non-empty middle part strictly between them that begins with the
"middle section omitted" marker. -/
theorem C1_head_tail_structure (T : Str) (B : Nat) (h : T.length > B) :
    ∃ mid : Str,
      smart_truncate T B =
        T.take (2 * B / 5) ++ mid ++ T.drop (T.length - 2 * B / 5) ∧
      mid ≠ [] ∧ ∃ rest : Str, mid = marker ++ rest := by
  have hnot : ¬ T.length ≤ B := Nat.not_le.mpr h
  by_cases h5 : 2 * B / 5 = 0
  · refine ⟨marker ++ T, ?_, ?_, T, rfl⟩
    · simp [smart_truncate, hnot, pySliceFromNeg, h5, List.drop_length]
    · intro hc
      exact absurd (congrArg List.length hc) (by simp [marker])
  · refine ⟨marker, ?_, ?_, [], by simp⟩
    · simp [smart_truncate, hnot, pySliceFromNeg, h5]
    · intro hc
      exact absurd (congrArg List.length hc) (by simp [marker])

/-- Witness for C1 at `T = "abcdef"`, `B = 5` (so `int(0.4*B) = 2`). -/
theorem C1_head_tail_structure_witness :
    ∃ mid : Str,
      smart_truncate (("abcdef").data) 5 =
        (("abcdef").data).take (2 * 5 / 5) ++ mid ++
          (("abcdef").data).drop ((("abcdef").data).length - 2 * 5 / 5) ∧
      mid ≠ [] ∧ ∃ rest : Str, mid = marker ++ rest :=
  C1_head_tail_structure (("abcdef").data) 5 (by decide)

/-- Claim C2: for every text `T` and the configured budget
`max_chars = 20000` (the only budget `smart_truncate` is invoked with in
the source), the truncated result has length at most the budget: the two
`int(0.4*20000) = 8000`-character pieces plus the 38-character marker come
to 16038 ≤ 20000. -/
theorem C2_bounded_by_configured_budget (T : Str) :
    (smart_truncate T 20000).length ≤ 20000 := by
  by_cases hl : T.length ≤ 20000
  · simp [smart_truncate, hl]
  · have hm : marker.length = 38 := by decide
    simp only [smart_truncate, hl, if_false, pySliceFromNeg]
    have h8 : 2 * 20000 / 5 = 8000 := by norm_num
    rw [h8]
    have h0 : (8000 : Nat) ≠ 0 := by norm_num
    simp only [h0, if_false, List.length_append, List.length_take,
      List.length_drop, hm]
    omega

/-- Claim C3: for every text `T` and budget `B ≥ 0`, the hard cutoff
`hard_truncate T B` has length at most `B`; and for either strategy,
when `len(T) ≤ B` truncation is a no-op. -/
theorem C3_hard_cutoff_bound_and_noop (T : Str) (B : Nat) :
    (hard_truncate T B).length ≤ B ∧
      (T.length ≤ B → hard_truncate T B = T ∧ smart_truncate T B = T) := by
  refine ⟨?_, fun hle => ⟨?_, ?_⟩⟩
  · exact List.length_take_le B T
  · simp only [hard_truncate]
    exact List.take_of_length_le hle
  · simp [smart_truncate, hle]

/-- Witness for C3 at `T = "ab"`, `B = 5`, discharging `len(T) ≤ B`. -/
theorem C3_hard_cutoff_bound_and_noop_witness :
    hard_truncate (("ab").data) 5 = ("ab").data ∧
      smart_truncate (("ab").data) 5 = ("ab").data :=
  (C3_hard_cutoff_bound_and_noop (("ab").data) 5).2 (by decide)

/-- Claim C10: for every input document, the string `extract_pdf_text`
returns has length at most 45000 characters, whichever reader succeeded. -/
theorem C10_extract_capped (d : PDFDoc) :
    (extract_pdf_text d).length ≤ 45000 := by
  unfold extract_pdf_text
  by_cases hr : (runPrimary d).2
  · simp only [hr, if_true]
    cases hfb : runFallback d (runPrimary d).1 with
    | none => simp
    | some t => simp only [List.length_take]; omega
  · simp only [hr, if_false]
    exact List.length_take_le 45000 (runPrimary d).1

/-- Counterexample to claim C4 as stated: on `emptyFallbackDoc` the primary
reader fails (raises at open) and the fallback reader yields only empty page
texts, yet `extract_pdf_text` does not return an empty string — the fallback
loop appends a `"\n"` separator per page unconditionally, so the result is
`"\n\n"`. -/
theorem C4_counterexample :
    extract_pdf_text emptyFallbackDoc ≠ [] ∧
      (∃ e, emptyFallbackDoc.plumber = Except.error e) ∧
      emptyFallbackDoc.pypdf = Except.ok [Except.ok [], Except.ok []] :=
  ⟨by decide, ⟨("boom").data, rfl⟩, rfl⟩

/-- Claim C4 (amended): for every document on which both readers raise, or
on which the primary reader (without raising) yields only empty text,
`extract_pdf_text` returns the empty string and the pipeline signals the
extraction failure — it halts with no LLM call — rather than raising or
treating the empty text as success. -/
theorem C4_empty_extraction_signalled (d : PDFDoc) (llm : LLM)
    (k : AnalysisType)
    (h : ((runPrimary d).2 = true ∧ runFallback d (runPrimary d).1 = none) ∨
      ((runPrimary d).2 = false ∧ (runPrimary d).1 = [])) :
    extract_pdf_text d = [] ∧
      pipeline d llm k = (PipelineOutcome.extractionFailed, 0) := by
  have hex : extract_pdf_text d = [] := by
    rcases h with ⟨h1, h2⟩ | ⟨h1, h2⟩
    · simp [extract_pdf_text, h1, h2]
    · simp [extract_pdf_text, h1, h2]
  exact ⟨hex, by simp [pipeline, hex, pyStrip]⟩

/-- Witness for the amended C4 on the document where both readers raise. -/
theorem C4_empty_extraction_signalled_witness :
    extract_pdf_text bothRaiseDoc = [] ∧
      pipeline bothRaiseDoc (fun _ _ => Except.ok []) AnalysisType.summary =
        (PipelineOutcome.extractionFailed, 0) :=
  C4_empty_extraction_signalled bothRaiseDoc (fun _ _ => Except.ok [])
    AnalysisType.summary (Or.inl ⟨rfl, rfl⟩)

/-- Claim C5: whenever the extracted text is empty or whitespace-only
(its `strip()` is empty), the pipeline halts at the extraction check and
issues zero LLM calls. -/
theorem C5_no_llm_call_on_empty (d : PDFDoc) (llm : LLM) (k : AnalysisType)
    (h : pyStrip (extract_pdf_text d) = []) :
    pipeline d llm k = (PipelineOutcome.extractionFailed, 0) := by
  simp [pipeline, h]

/-- Witness for C5 on a document whose extraction is whitespace-only
(`" \n"`): the pipeline halts with zero LLM calls. -/
theorem C5_no_llm_call_on_empty_witness :
    pyStrip (extract_pdf_text whitespacePrimaryDoc) = [] ∧
      pipeline whitespacePrimaryDoc (fun _ _ => Except.ok [])
          AnalysisType.risks =
        (PipelineOutcome.extractionFailed, 0) :=
  ⟨by decide,
    C5_no_llm_call_on_empty whitespacePrimaryDoc (fun _ _ => Except.ok [])
      AnalysisType.risks (by decide)⟩

/-- Counterexample to claim C6 as stated: on `whitespacePrimaryDoc` the
primary reader succeeds but yields only whitespace (`" \n"`), yet
`extract_pdf_text` does not fall back — it returns the whitespace text,
not the secondary reader's output (`"XYZ\n"`).  Fallback happens only
when the primary reader raises. -/
theorem C6_counterexample :
    (runPrimary whitespacePrimaryDoc).2 = false ∧
      (runPrimary whitespacePrimaryDoc).1 ≠ [] ∧
      (∀ c ∈ (runPrimary whitespacePrimaryDoc).1, isPySpace c = true) ∧
      extract_pdf_text whitespacePrimaryDoc ≠
        (fallbackAlone whitespacePrimaryDoc).getD [] := by
  refine ⟨rfl, by decide, by decide, by decide⟩

/-- Claim C6 (amended): for every document on which the primary reader
raises before any text was accumulated — at open, or on a page failing
before any page text was kept — if the fallback reader, with its own
smaller limits (15 pages and the 40000-character stop), succeeds with
text `t`, then `extract_pdf_text` returns `t` capped at 45000 characters;
whitespace-only primary output does not trigger fallback. -/
theorem C6_fallback_on_primary_raise (d : PDFDoc) (t : Str)
    (hp : (runPrimary d).2 = true) (ha : (runPrimary d).1 = [])
    (hf : runFallback d [] = some t) :
    extract_pdf_text d = t.take 45000 := by
  simp [extract_pdf_text, hp, ha, hf]

/-- Witness for the amended C6: the primary reader opens but its first
page raises with nothing accumulated; the fallback reads one page `"XYZ"`,
so extraction returns `"XYZ\n"`. -/
theorem C6_fallback_on_primary_raise_witness :
    extract_pdf_text pageRaiseDoc =
      (('X' :: 'Y' :: 'Z' :: '\n' :: []) : Str).take 45000 :=
  C6_fallback_on_primary_raise pageRaiseDoc
    ('X' :: 'Y' :: 'Z' :: '\n' :: []) rfl rfl rfl

/-- Claim C7: whenever the LLM call raises, `analyze_report` does not
propagate the exception: it returns normally with the error text recorded
in the output (`"❌ Error: " + str(e)`), which therefore contains the
error message.  (In this program every analysis run consists of a single
chunk — the whole truncated text — so no other chunks exist to abort.) -/
theorem C7_error_recorded_in_result (llm : LLM) (text : Str)
    (kind : AnalysisType) (e : Str)
    (h : llm systemInstruction (prompts kind text) = Except.error e) :
    (analyze_report llm text kind).1 = errTag ++ e ∧
      ∃ pre : Str, (analyze_report llm text kind).1 = pre ++ e := by
  refine ⟨by simp [analyze_report, h], errTag, by simp [analyze_report, h]⟩

/-- Witness for C7 with an LLM stub that always raises `"boom"`. -/
theorem C7_error_recorded_in_result_witness :
    (analyze_report (fun _ _ => Except.error (("boom").data)) (("t").data)
        AnalysisType.summary).1 = errTag ++ ("boom").data ∧
      ∃ pre : Str,
        (analyze_report (fun _ _ => Except.error (("boom").data)) (("t").data)
            AnalysisType.summary).1 = pre ++ ("boom").data :=
  C7_error_recorded_in_result (fun _ _ => Except.error (("boom").data))
    (("t").data) AnalysisType.summary (("boom").data) rfl

/-- Claim C8: every analysis run processes exactly one chunk (the whole
truncated text): `analyze_report` issues exactly one LLM call, that call's
prompt is the kind-specific per-chunk prompt (so no reduce call is ever
issued), and on success the chunk's output is returned directly.  (The
multi-chunk clause of the claim is vacuous: no run of this program ever
has more than one chunk.) -/
theorem C8_one_chunk_one_call (llm : LLM) (text : Str) (kind : AnalysisType) :
    (analyze_report llm text kind).2 =
        [(systemInstruction, prompts kind text)] ∧
      (analyze_report llm text kind).2.length = 1 ∧
      ∀ out : Str, llm systemInstruction (prompts kind text) = Except.ok out →
        (analyze_report llm text kind).1 = out := by
  refine ⟨rfl, rfl, fun out h => ?_⟩
  simp [analyze_report, h]

/-- Witness for C8 with an LLM stub that returns `"OUT"`: one call is
issued and its output is returned directly. -/
theorem C8_one_chunk_one_call_witness :
    (analyze_report (fun _ _ => Except.ok (("OUT").data)) (("t2").data)
        AnalysisType.metrics).2.length = 1 ∧
      (analyze_report (fun _ _ => Except.ok (("OUT").data)) (("t2").data)
          AnalysisType.metrics).1 = ("OUT").data :=
  ⟨(C8_one_chunk_one_call (fun _ _ => Except.ok (("OUT").data)) (("t2").data)
      AnalysisType.metrics).2.1,
    (C8_one_chunk_one_call (fun _ _ => Except.ok (("OUT").data)) (("t2").data)
      AnalysisType.metrics).2.2 (("OUT").data) rfl⟩

/-- Helper: with `n ≠ 0` and enough fuel, the groups concatenate back to
the original word list. -/
theorem groupNGo_join (n : Nat) (hn : n ≠ 0) (fuel : Nat) :
    ∀ l : List Str, l.length ≤ fuel → (groupNGo n fuel l).flatten = l := by
  induction fuel with
  | zero =>
    intro l h
    have hl : l = [] := List.length_eq_zero.mp (Nat.le_zero.mp h)
    subst hl
    simp [groupNGo]
  | succ f ih =>
    intro l h
    cases l with
    | nil => simp [groupNGo]
    | cons w ws =>
      simp only [groupNGo, List.flatten_cons]
      have hlen : ((w :: ws).drop n).length ≤ f := by
        simp only [List.length_drop, List.length_cons]
        simp only [List.length_cons] at h
        omega
      rw [ih _ hlen, List.take_append_drop]

/-- Helper: with `n ≠ 0` and enough fuel, the number of groups is
`⌈l.length / n⌉ = (l.length + n - 1) / n`. -/
theorem groupNGo_length (n : Nat) (hn : n ≠ 0) (fuel : Nat) :
    ∀ l : List Str, l.length ≤ fuel →
      (groupNGo n fuel l).length = (l.length + n - 1) / n := by
  induction fuel with
  | zero =>
    intro l h
    have hl : l = [] := List.length_eq_zero.mp (Nat.le_zero.mp h)
    subst hl
    simp only [groupNGo, List.length_nil]
    symm
    exact Nat.div_eq_of_lt (by omega)
  | succ f ih =>
    intro l h
    cases l with
    | nil =>
      simp only [groupNGo, List.length_nil]
      symm
      exact Nat.div_eq_of_lt (by omega)
    | cons w ws =>
      simp only [groupNGo, List.length_cons]
      have hlen : ((w :: ws).drop n).length ≤ f := by
        simp only [List.length_drop, List.length_cons]
        simp only [List.length_cons] at h
        omega
      rw [ih _ hlen]
      simp only [List.length_drop, List.length_cons]
      by_cases hc : ws.length + 1 ≤ n
      · have h1 : ws.length + 1 - n = 0 := by omega
        rw [h1]
        have h2 : (0 + n - 1) / n = 0 := Nat.div_eq_of_lt (by omega)
        have h3 : (ws.length + 1 + n - 1) / n = 1 := by
          apply Nat.div_eq_of_lt_le
          · omega
          · omega
        omega
      · have h1 : ws.length + 1 - n + n - 1 = ws.length := by omega
        have h2 : ws.length + 1 + n - 1 = ws.length + n := by omega
        rw [h1, h2, Nat.add_div_right _ (Nat.pos_of_ne_zero hn)]

/-- Helper: with `n ≠ 0`, every group is non-empty. -/
theorem groupNGo_ne_nil (n : Nat) (hn : n ≠ 0) (fuel : Nat) :
    ∀ l : List Str, ∀ g ∈ groupNGo n fuel l, g ≠ [] := by
  induction fuel with
  | zero => intro l g hg; simp [groupNGo] at hg
  | succ f ih =>
    intro l g hg
    cases l with
    | nil => simp [groupNGo] at hg
    | cons w ws =>
      simp only [groupNGo, List.mem_cons] at hg
      rcases hg with h | h
      · subst h
        cases n with
        | zero => exact absurd rfl hn
        | succ k => simp [List.take]
      · exact ih _ g h

/-- Helper: every word produced by `wordsAux` (from a space-free current
accumulator) is non-empty and space-free. -/
theorem wordsAux_sound (t : Str) :
    ∀ cur : Str, (∀ c ∈ cur, isPySpace c = false) →
      ∀ w ∈ wordsAux t cur, w ≠ [] ∧ ∀ c ∈ w, isPySpace c = false := by
  induction t with
  | nil =>
    intro cur hcur w hw
    by_cases hc : cur = []
    · simp [wordsAux, hc] at hw
    · simp only [wordsAux, if_neg hc, List.mem_singleton] at hw
      subst hw
      refine ⟨by simpa using hc, fun c hcm => hcur c (List.mem_reverse.mp hcm)⟩
  | cons c cs ih =>
    intro cur hcur w hw
    simp only [wordsAux] at hw
    by_cases hsp : isPySpace c = true
    · rw [if_pos hsp] at hw
      by_cases hc : cur = []
      · rw [if_pos hc] at hw
        exact ih [] (by simp) w hw
      · rw [if_neg hc] at hw
        rcases List.mem_cons.mp hw with h | h
        · subst h
          exact ⟨by simpa using hc,
            fun x hx => hcur x (List.mem_reverse.mp hx)⟩
        · exact ih [] (by simp) w h
    · rw [if_neg hsp] at hw
      refine ih (c :: cur) ?_ w hw
      intro x hx
      rcases List.mem_cons.mp hx with h | h
      · subst h
        exact Bool.not_eq_true _ ▸ (Bool.of_not_eq_true hsp)
      · exact hcur x h

/-- Helper: `wordsAux` consumes a space-free block as one growing word. -/
theorem wordsAux_block (w : Str) :
    ∀ (t cur : Str), (∀ c ∈ w, isPySpace c = false) →
      wordsAux (w ++ t) cur = wordsAux t (w.reverse ++ cur) := by
  induction w with
  | nil => intro t cur _; simp
  | cons c cs ih =>
    intro t cur h
    have hc : isPySpace c = false := h c (by simp)
    simp only [List.cons_append, wordsAux, hc, Bool.false_eq_true, if_false,
      List.append_eq]
    rw [ih t (c :: cur) (fun x hx => h x (by simp [hx]))]
    simp [List.reverse_cons, List.append_assoc]

/-- Helper: re-splitting a space-joined list of non-empty, space-free
words recovers exactly those words. -/
theorem wordsOf_spaceJoin (ws : List Str)
    (h : ∀ w ∈ ws, w ≠ [] ∧ ∀ c ∈ w, isPySpace c = false) :
    wordsOf (spaceJoin ws) = ws := by
  induction ws with
  | nil => simp [wordsOf, spaceJoin, wordsAux]
  | cons w tail ih =>
    have hw := h w (by simp)
    have hrev : ¬ w.reverse = [] := by simpa using hw.1
    cases tail with
    | nil =>
      have h2 := wordsAux_block w [] [] hw.2
      simp only [List.append_nil] at h2
      simp only [spaceJoin, wordsOf]
      rw [h2, wordsAux, if_neg hrev]
      simp
    | cons x rest =>
      have h2 := wordsAux_block w (' ' :: spaceJoin (x :: rest)) [] hw.2
      simp only [List.append_nil] at h2
      simp only [spaceJoin, wordsOf]
      rw [h2, wordsAux]
      rw [if_pos (by decide), if_neg hrev]
      simp only [List.reverse_reverse]
      have ih2 := ih (fun g hg => h g (by simp [hg]))
      simp only [wordsOf] at ih2
      rw [ih2]

/-- Helper: `spaceJoin` distributes over append of non-empty lists. -/
theorem spaceJoin_append (rest : List Str) (hrest : rest ≠ []) :
    ∀ g : List Str, g ≠ [] →
      spaceJoin (g ++ rest) = spaceJoin g ++ ' ' :: spaceJoin rest := by
  intro g
  induction g with
  | nil => intro hg; exact absurd rfl hg
  | cons w g' ih =>
    intro _
    cases g' with
    | nil =>
      cases rest with
      | nil => exact absurd rfl hrest
      | cons r rs => simp [spaceJoin]
    | cons y g'' =>
      have hstep := ih (by simp)
      simp only [List.cons_append] at hstep ⊢
      simp only [spaceJoin]
      rw [hstep]
      simp [List.append_assoc]

/-- Helper: space-joining the per-group joins equals space-joining all the
words at once, when every group is non-empty. -/
theorem spaceJoin_map (gs : List (List Str)) (h : ∀ g ∈ gs, g ≠ []) :
    spaceJoin (gs.map spaceJoin) = spaceJoin gs.flatten := by
  induction gs with
  | nil => simp [spaceJoin]
  | cons g tail ih =>
    cases tail with
    | nil => simp [spaceJoin]
    | cons g2 tail2 =>
      have hg : g ≠ [] := h g (by simp)
      have hjoin : (g2 :: tail2).flatten ≠ [] := by
        have hg2 : g2 ≠ [] := h g2 (by simp)
        cases g2 with
        | nil => exact absurd rfl hg2
        | cons a as => simp
      have ih2 := ih (fun x hx => h x (by simp [hx]))
      calc spaceJoin ((g :: g2 :: tail2).map spaceJoin)
          = spaceJoin g ++ ' ' :: spaceJoin ((g2 :: tail2).map spaceJoin) := by
            simp only [List.map_cons, spaceJoin]
        _ = spaceJoin g ++ ' ' :: spaceJoin ((g2 :: tail2).flatten) := by
            rw [ih2]
        _ = spaceJoin (g ++ (g2 :: tail2).flatten) :=
            (spaceJoin_append _ hjoin g hg).symm
        _ = spaceJoin ((g :: g2 :: tail2).flatten) := by
            simp only [List.flatten_cons]

/-- Claim C9: for every text `T` and chunk size `N > 0`, `chunk(T, N)`
produces exactly `⌈wordCount(T)/N⌉` chunks, re-joining them with single
spaces reconstructs `T`'s word sequence exactly (no word lost, duplicated
or split), and `chunk` over the empty text is the empty sequence. -/
theorem C9_chunk_partition (t : Str) (n : Nat) (hn : 0 < n) :
    (chunk t n).length = ((wordsOf t).length + n - 1) / n ∧
      wordsOf (spaceJoin (chunk t n)) = wordsOf t ∧
      chunk [] n = [] := by
  have hn' : n ≠ 0 := by omega
  refine ⟨?_, ?_, ?_⟩
  · simp only [chunk, List.length_map, groupN]
    exact groupNGo_length n hn' _ _ (le_refl _)
  · have hwords := wordsAux_sound t [] (by simp)
    have hgroups : ∀ g ∈ groupN n (wordsOf t), g ≠ [] :=
      fun g hg => groupNGo_ne_nil n hn' _ _ g hg
    simp only [chunk]
    rw [spaceJoin_map _ hgroups]
    have hj : (groupN n (wordsOf t)).flatten = wordsOf t :=
      groupNGo_join n hn' _ _ (le_refl _)
    rw [hj]
    exact wordsOf_spaceJoin _ hwords
  · simp [chunk, wordsOf, wordsAux, groupN, groupNGo]

/-- Witness for C9 at `T = "a b c"`, `N = 2`: two chunks, words preserved. -/
theorem C9_chunk_partition_witness :
    0 < 2 ∧
      ((chunk (("a b c").data) 2).length =
          ((wordsOf (("a b c").data)).length + 2 - 1) / 2 ∧
        wordsOf (spaceJoin (chunk (("a b c").data) 2)) =
          wordsOf (("a b c").data) ∧
        chunk [] 2 = []) :=
  ⟨by decide, C9_chunk_partition (("a b c").data) 2 (by decide)⟩
